import Mathlib

/-!
Shallow embedding of the inertia-engine orchestrator
(`internal/engine/engine.go` and the `main` package) in Lean 4.

Modelling conventions:
* Go strings are modelled as Lean `String` / `List Char`.  Go's
  `strings.Index`/`strings.LastIndex` return byte offsets; we use character
  offsets.  Since `{`, `}` and ` ` are single-byte and UTF-8 is
  self-synchronizing, the extracted substrings, the substring-containment
  tests and the "panic" predicate (`start > end+1`) coincide with the
  byte-level versions.
* `time.Time` values and `time.Duration`s are modelled as `Int` nanosecond
  counts (Go's `Duration` is an `int64` nanosecond count; 64-bit overflow is
  out of range for the values considered here).
* The `float64` age pipeline `int(Duration.Hours() / 24)` is modelled with
  explicit IEEE-754 binary64 round-to-nearest-even on every conversion and
  operation (see `flFrac` below).  The `span_years` and `inertia_score`
  values remain exact rationals: the spans exercised by the claims are
  exactly representable, rounding is monotone so the max-comparison logic
  is unaffected, and the score is decoded and stored without arithmetic.
* `encoding/json` is modelled by an executable JSON parser plus a decoder
  that follows `json.Unmarshal`'s behaviour on the target struct shapes
  (unknown fields ignored, case-insensitive field match, `null` leaving
  non-pointer fields at their zero value and setting pointer fields to nil,
  type mismatches reported as errors).
* A Go runtime panic is modelled by returning `none` from an
  `Option`-valued function.
-/

namespace InertiaEngine

/-! ## Character and string primitives mirroring Go's `strings` package -/

/-- Models Go `strings.ToLower` on one character.  The source applies the
    Unicode lowering; it agrees with this ASCII lowering on all ASCII
    inputs. -/
def goLowerChar (c : Char) : Char :=
  if 'A' ≤ c ∧ c ≤ 'Z' then Char.ofNat (c.toNat + 32) else c

/-- Models Go `strings.ToLower` over the characters of a string. -/
def goToLower (s : List Char) : List Char := s.map goLowerChar

/-- Tests whether `needle` occurs at the very start of `haystack`. -/
def goHasPre : List Char → List Char → Bool
  | _, [] => true
  | [], _ :: _ => false
  | h :: hs, n :: ns => h == n && goHasPre hs ns

/-- Models Go `strings.Contains haystack needle`: contiguous substring
    containment. -/
def goContains : List Char → List Char → Bool
  | [], n => goHasPre [] n
  | h :: hs, n => goHasPre (h :: hs) n || goContains hs n

/-- Models Go `strings.Split s " "`: split on every single space, keeping
    empty fields; the empty string yields one empty field. -/
def goSplitOnSpace : List Char → List (List Char)
  | [] => [[]]
  | c :: t =>
    let r := goSplitOnSpace t
    if c == ' ' then [] :: r
    else
      match r with
      | [] => [[c]]
      | x :: xs => (c :: x) :: xs

/-- Models Go `strings.Index s (string c)`: offset of the first occurrence
    of `c`, `none` for Go's `-1`. -/
def goIndexOf : List Char → Char → Option Nat
  | [], _ => none
  | x :: t, c => if x == c then some 0 else (goIndexOf t c).map (· + 1)

/-- Models Go `strings.LastIndex s (string c)`: offset of the last
    occurrence of `c`, `none` for Go's `-1`. -/
def goLastIndexOf : List Char → Char → Option Nat
  | [], _ => none
  | x :: t, c =>
    match goLastIndexOf t c with
    | some i => some (i + 1)
    | none => if x == c then some 0 else none

/-- Models the Go slice expression `s[lo:hi]` on an in-range slice. -/
def goSlice (cs : List Char) (lo hi : Nat) : List Char :=
  (cs.take hi).drop lo

/-! ## IEEE-754 binary64 arithmetic and the age computation

    The source computes the task age as
    `int(NowFunc().Sub(task.AddedAt).Hours() / 24)` in `float64`, so the
    model makes the rounding explicit: `flFrac` rounds an exact fraction to
    the nearest binary64 value (ties to even) over the normal range, which
    covers every value this pipeline can produce from a 64-bit nanosecond
    duration (hours stay far below 2^970, and the fractional part of an
    hour is at least 2^-42, far above the subnormal threshold). -/

/-- Largest binary exponent step: given `d * 2^e ≤ n`, climbs to the
    largest `e'` with `d * 2^e' ≤ n` (the fuel bounds the climb and is
    always sufficient at `fuel = n`). -/
def expUp (d n : Nat) : Nat → Nat → Nat
  | 0, e => e
  | fuel + 1, e => if d * 2 ^ (e + 1) ≤ n then expUp d n fuel (e + 1) else e

/-- Smallest `k` with `d ≤ n * 2^k` (the fuel bounds the descent and is
    always sufficient at `fuel = d`). -/
def expDown (n d : Nat) : Nat → Nat → Nat
  | 0, k => k
  | fuel + 1, k => if d ≤ n * 2 ^ k then k else expDown n d fuel (k + 1)

/-- Binary exponent of the positive fraction `n / d`: the `e` with
    `2^e ≤ n / d < 2^(e+1)`. -/
def binExp (n d : Nat) : Int :=
  if d ≤ n then (expUp d n n 0 : Int) else -(expDown n d d 0 : Int)

/-- Rounds `N / D` to the nearest integer, ties to even. -/
def roundNearestEven (N D : Nat) : Nat :=
  let q := N / D
  let r := N % D
  if D < 2 * r then q + 1
  else if 2 * r < D then q
  else if q % 2 = 0 then q else q + 1

/-- Rounds the positive fraction `n / d` to the nearest binary64 value:
    the significand is the 53-bit rounding of `n / d` scaled into
    `[2^52, 2^53)`. -/
def flPos (n d : Nat) : ℚ :=
  let e : Int := binExp n d
  if e ≤ 52 then
    let den := 2 ^ (52 - e).toNat
    mkRat (roundNearestEven (n * den) d : Int) den
  else
    ((roundNearestEven n (d * 2 ^ (e - 52).toNat) * 2 ^ (e - 52).toNat : Nat) : ℚ)

/-- Rounds the fraction `num / den` to the nearest binary64 value. -/
def flFrac (num : Int) (den : Nat) : ℚ :=
  if num = 0 then 0
  else if num < 0 then -(flPos num.natAbs den) else flPos num.natAbs den

/-- Rounds an exact rational to the nearest binary64 value; also models
    Go's integer-to-`float64` conversions, which use the same rounding. -/
def flQ (q : ℚ) : ℚ := flFrac q.num q.den

/-- Models one `float64` division: the exact quotient, rounded. -/
def flDivQ (a b : ℚ) : ℚ :=
  let num0 : Int := a.num * (b.den : Int)
  let den0 : Int := (a.den : Int) * b.num
  if den0 < 0 then flFrac (-num0) den0.natAbs else flFrac num0 den0.natAbs

/-- Models one `float64` addition: the exact sum, rounded. -/
def flAddQ (a b : ℚ) : ℚ :=
  flFrac (a.num * (b.den : Int) + b.num * (a.den : Int)) (a.den * b.den)

/-- Models Go's `int(x)` conversion from `float64`: rounding toward zero. -/
def goFloatToInt (q : ℚ) : Int :=
  if q < 0 then -(Rat.floor (-q)) else Rat.floor q

/-- Nanoseconds per hour (`time.Hour`). -/
def nsPerHour : Int := 3600000000000

/-- Nanoseconds per day. -/
def nsPerDay : Int := 86400000000000

/-- Models Go `time.Duration.Hours()` on a duration of `d` nanoseconds,
    exactly as the standard library computes it:
    `float64(d / Hour) + float64(d % Hour) / (60*60*1e9)`, with truncating
    integer division and modulus, each conversion and each floating-point
    operation rounded to binary64 (the constant `60*60*1e9` is exactly
    representable). -/
def goDurationHours (d : Int) : ℚ :=
  let hour := d.tdiv nsPerHour
  let nsec := d.tmod nsPerHour
  flAddQ (flQ ((hour : ℚ))) (flDivQ (flQ ((nsec : ℚ))) ((nsPerHour : ℚ)))

/-- Models the source expression `int(NowFunc().Sub(task.AddedAt).Hours() / 24)`
    (engine.go line 202), with both instants as nanosecond counts: the
    `float64` division by 24 is rounded, then the conversion truncates
    toward zero. -/
def goAgeDays (now addedAt : Int) : Int :=
  goFloatToInt (flDivQ (goDurationHours (now - addedAt)) ((24 : ℚ)))

/-- Modelled from the spec: "Age = whole days between an injectable now
    source and the task's creation timestamp (floor division)".  Defined
    only for comparison against the source's `goAgeDays`. -/
def specAgeDaysFloor (now addedAt : Int) : Int :=
  Int.fdiv (now - addedAt) nsPerDay

/-! ## Data model (engine.go lines 21-102) -/

/-- Gazetteer entry (`Entity`).  `SpanYears` holds the raw JSON bytes of the
    `span_years` field (`json.RawMessage`); the empty string models an
    absent field. -/
structure Entity where
  Name : String
  Context : String := ""
  Sources : List String := []
  SpanYears : String := ""
  Status : String := ""
  Note : String := ""
  EmotionalValence : String := ""
deriving DecidableEq

/-- Snapshot `State` record. -/
structure State where
  Energy : String := ""
  Mood : String := ""
  Environment : String := ""
  WorkVolatility : String := ""
deriving DecidableEq

/-- The four entity collections of the context snapshot. -/
structure Gazetteer where
  People : List Entity := []
  Projects : List Entity := []
  Places : List Entity := []
  Concepts : List Entity := []
deriving DecidableEq

/-- Intentions record. -/
structure Intentions where
  Explicit : List String := []
  Implicit : List String := []
deriving DecidableEq

/-- Context snapshot (`InertiaContext`). -/
structure InertiaContext where
  Date : String := ""
  Gazetteer : Gazetteer := {}
  State : State := {}
  Intentions : Intentions := {}
deriving DecidableEq

/-- Task record; `AddedAt`/`UpdatedAt` are nanosecond instants. -/
structure Task where
  ID : String
  Content : String := ""
  Description : String := ""
  Priority : Int := 0
  ParentID : Option String := none
  AddedAt : Int := 0
  UpdatedAt : Int := 0
  Labels : List String := []
  ProjectID : String := ""
deriving DecidableEq

/-- Structured decision produced for one task. -/
structure Decision where
  TaskID : String
  Action : String
  Priority : Option Int := none
  NewContent : Option String := none
  Subtasks : List String := []
  Reasoning : String := ""
  InertiaScore : ℚ := 0
deriving DecidableEq

/-- Derived per-task view (`TaskContext`). -/
structure TaskContext where
  Task : Task
  RelatedPeople : List Entity
  RelatedProjects : List Entity
  RelatedConcepts : List Entity
  State : State
  AgeDays : Int
  HistoricalWeight : ℚ
deriving DecidableEq

/-! ## JSON values and parsing, modelling `encoding/json` -/

/-- Parsed JSON values.  Numbers are carried exactly as rationals. -/
inductive Json where
  | null
  | bool (b : Bool)
  | num (q : ℚ)
  | str (s : String)
  | arr (elems : List Json)
  | obj (fields : List (String × Json))

/-- JSON whitespace. -/
def isJsonWs (c : Char) : Bool :=
  c == ' ' || c == '\t' || c == '\n' || c == '\r'

/-- Drops leading JSON whitespace. -/
def skipWs : List Char → List Char
  | [] => []
  | c :: t => if isJsonWs c then skipWs t else c :: t

/-- Value of a decimal digit, if `c` is one. -/
def digitVal (c : Char) : Option Nat :=
  if '0' ≤ c ∧ c ≤ '9' then some (c.toNat - 48) else none

/-- Value of a hexadecimal digit, if `c` is one. -/
def hexVal (c : Char) : Option Nat :=
  if '0' ≤ c ∧ c ≤ '9' then some (c.toNat - 48)
  else if 'a' ≤ c ∧ c ≤ 'f' then some (c.toNat - 87)
  else if 'A' ≤ c ∧ c ≤ 'F' then some (c.toNat - 55)
  else none

/-- Takes a maximal run of decimal digits from the front. -/
def takeDigits : List Char → List Nat × List Char
  | [] => ([], [])
  | c :: t =>
    match digitVal c with
    | some d => let (ds, r) := takeDigits t; (d :: ds, r)
    | none => ([], c :: t)

/-- Reads a digit run as a natural number. -/
def digitsToNat (ds : List Nat) : Nat := ds.foldl (fun a d => a * 10 + d) 0

/-- Parses a JSON number literal (RFC 8259 grammar, as accepted by
    `encoding/json`): optional minus, integer part without a superfluous
    leading zero, optional fraction, optional exponent. -/
def parseJsonNumber (cs : List Char) : Option (ℚ × List Char) :=
  let (neg, cs1) :=
    match cs with
    | '-' :: t => (true, t)
    | _ => (false, cs)
  match takeDigits cs1 with
  | ([], _) => none
  | (d :: ds, cs2) =>
    if d = 0 ∧ ds ≠ [] then none
    else
      let (fracDs, cs3, fracOk) :=
        match cs2 with
        | '.' :: t =>
          match takeDigits t with
          | ([], _) => ([], t, false)
          | (fs, r) => (fs, r, true)
        | _ => ([], cs2, true)
      if !fracOk then none
      else
        let mantissa : ℚ := mkRat (digitsToNat (d :: ds ++ fracDs)) (10 ^ fracDs.length)
        let withSign : ℚ := if neg then -mantissa else mantissa
        match cs3 with
        | e :: t =>
          if e == 'e' || e == 'E' then
            let (expNeg, t1) :=
              match t with
              | '-' :: u => (true, u)
              | '+' :: u => (false, u)
              | _ => (false, t)
            match takeDigits t1 with
            | ([], _) => none
            | (es, cs4) =>
              let ex := digitsToNat es
              let scaled := if expNeg then withSign / (10 : ℚ) ^ ex else withSign * (10 : ℚ) ^ ex
              some (scaled, cs4)
          else some (withSign, cs3)
        | [] => some (withSign, [])

/-- Parses the body of a JSON string literal after the opening quote,
    accumulating decoded characters; handles the escape sequences accepted
    by `encoding/json` (a malformed surrogate escape decodes to U+FFFD as
    in Go). -/
def parseJsonStringBody : List Char → List Char → Option (String × List Char)
  | _, [] => none
  | acc, c :: t =>
    if c == '"' then some (⟨acc.reverse⟩, t)
    else if c == '\\' then
      match t with
      | [] => none
      | e :: u =>
        if e == '"' then parseJsonStringBody ('"' :: acc) u
        else if e == '\\' then parseJsonStringBody ('\\' :: acc) u
        else if e == '/' then parseJsonStringBody ('/' :: acc) u
        else if e == 'b' then parseJsonStringBody (Char.ofNat 8 :: acc) u
        else if e == 'f' then parseJsonStringBody (Char.ofNat 12 :: acc) u
        else if e == 'n' then parseJsonStringBody ('\n' :: acc) u
        else if e == 'r' then parseJsonStringBody ('\r' :: acc) u
        else if e == 't' then parseJsonStringBody ('\t' :: acc) u
        else if e == 'u' then
          match u with
          | h1 :: h2 :: h3 :: h4 :: v =>
            match hexVal h1, hexVal h2, hexVal h3, hexVal h4 with
            | some a, some b, some c2, some d =>
              let n := ((a * 16 + b) * 16 + c2) * 16 + d
              let ch := if n < 0xD800 ∨ 0xDFFF < n then Char.ofNat n else Char.ofNat 0xFFFD
              parseJsonStringBody (ch :: acc) v
            | _, _, _, _ => none
          | _ => none
        else none
    else if c.toNat < 0x20 then none
    else parseJsonStringBody (c :: acc) t

/-- Requests handed to the fueled JSON parser: a single value, the element
    list of an array (after `[`), or the member list of an object (after
    `\x7b`). -/
inductive PReq where
  | val
  | elems (first : Bool)
  | members (first : Bool)

/-- Results produced by the fueled JSON parser. -/
inductive PRes where
  | v (j : Json)
  | es (l : List Json)
  | ms (l : List (String × Json))

/-- Fueled recursive-descent JSON parser.  The fuel only bounds recursion
    depth/iterations; every recursive call strictly decreases it, and a
    linear amount in the input length is always sufficient because each
    loop iteration consumes at least one input character. -/
def parseP : Nat → PReq → List Char → Option (PRes × List Char)
  | 0, _, _ => none
  | fuel + 1, PReq.val, cs =>
    match skipWs cs with
    | [] => none
    | c :: t =>
      if c == 'n' then
        match t with
        | 'u' :: 'l' :: 'l' :: r => some (PRes.v Json.null, r)
        | _ => none
      else if c == 't' then
        match t with
        | 'r' :: 'u' :: 'e' :: r => some (PRes.v (Json.bool true), r)
        | _ => none
      else if c == 'f' then
        match t with
        | 'a' :: 'l' :: 's' :: 'e' :: r => some (PRes.v (Json.bool false), r)
        | _ => none
      else if c == '"' then
        match parseJsonStringBody [] t with
        | some (s, r) => some (PRes.v (Json.str s), r)
        | none => none
      else if c == '[' then
        match parseP fuel (PReq.elems true) t with
        | some (PRes.es l, r) => some (PRes.v (Json.arr l), r)
        | _ => none
      else if c == '\x7b' then
        match parseP fuel (PReq.members true) t with
        | some (PRes.ms l, r) => some (PRes.v (Json.obj l), r)
        | _ => none
      else
        match parseJsonNumber (c :: t) with
        | some (q, r) => some (PRes.v (Json.num q), r)
        | none => none
  | fuel + 1, PReq.elems first, cs =>
    match skipWs cs with
    | [] => none
    | c :: t =>
      if first && c == ']' then some (PRes.es [], t)
      else
        match parseP fuel PReq.val (c :: t) with
        | some (PRes.v j, r) =>
          (match skipWs r with
           | ']' :: r2 => some (PRes.es [j], r2)
           | ',' :: r2 =>
             match parseP fuel (PReq.elems false) r2 with
             | some (PRes.es l, r3) => some (PRes.es (j :: l), r3)
             | _ => none
           | _ => none)
        | _ => none
  | fuel + 1, PReq.members first, cs =>
    match skipWs cs with
    | [] => none
    | c :: t =>
      if first && c == '\x7d' then some (PRes.ms [], t)
      else if c == '"' then
        match parseJsonStringBody [] t with
        | some (k, r) =>
          (match skipWs r with
           | ':' :: r2 =>
             match parseP fuel PReq.val r2 with
             | some (PRes.v j, r3) =>
               (match skipWs r3 with
                | '\x7d' :: r4 => some (PRes.ms [(k, j)], r4)
                | ',' :: r4 =>
                  match parseP fuel (PReq.members false) r4 with
                  | some (PRes.ms l, r5) => some (PRes.ms ((k, j) :: l), r5)
                  | _ => none
                | _ => none)
             | _ => none
           | _ => none)
        | none => none
      else none

/-- Parses a complete JSON text: one value, possibly surrounded by
    whitespace, with nothing after it (as `json.Unmarshal` requires). -/
def parseJsonText (cs : List Char) : Option Json :=
  match parseP (4 * cs.length + 8) PReq.val cs with
  | some (PRes.v j, rest) => if skipWs rest = [] then some j else none
  | _ => none

/-- Case-insensitive string equality, modelling Go's `strings.EqualFold`
    as used for JSON field-name matching (ASCII agreement, as above). -/
def goEqualFold (a b : String) : Bool := goToLower a.data == goToLower b.data

/-- Target shape of the anonymous `result` struct decoded inside
    `ParseDecisionResponse` (engine.go lines 287-294), with Go zero values
    as defaults. -/
structure DecisionJSON where
  action : String := ""
  priority : Option Int := none
  new_content : Option String := none
  subtasks : List String := []
  reasoning : String := ""
  inertia_score : ℚ := 0
deriving DecidableEq

/-- Decodes one array element into a `string` slice element as
    `json.Unmarshal` does: `null` leaves the zero value, a string is taken,
    anything else is a type error. -/
def decodeStringElem : Json → Except String String
  | Json.str s => Except.ok s
  | Json.null => Except.ok ""
  | _ => Except.error ("cannot unmarshal value into Go value of type string")

/-- Decodes a JSON array into a `[]string`. -/
def decodeStringList : List Json → Except String (List String)
  | [] => Except.ok []
  | j :: t => do
    let s ← decodeStringElem j
    let r ← decodeStringList t
    Except.ok (s :: r)

/-- Applies one object member to the partially decoded struct, following
    `json.Unmarshal` field semantics: field names match case-insensitively,
    unknown keys are ignored, `null` resets pointer fields to nil and leaves
    non-pointer fields unchanged, and a wrong-typed value is an error. -/
def applyDecisionField (r : DecisionJSON) (key : String) (v : Json) :
    Except String DecisionJSON :=
  if goEqualFold key ("action") then
    match v with
    | Json.str s => Except.ok { r with action := s }
    | Json.null => Except.ok r
    | _ => Except.error ("cannot unmarshal value into field action of type string")
  else if goEqualFold key ("priority") then
    match v with
    | Json.null => Except.ok { r with priority := none }
    | Json.num q =>
      if q.den = 1 then Except.ok { r with priority := some q.num }
      else Except.error ("cannot unmarshal number into field priority of type int")
    | _ => Except.error ("cannot unmarshal value into field priority of type int")
  else if goEqualFold key ("new_content") then
    match v with
    | Json.null => Except.ok { r with new_content := none }
    | Json.str s => Except.ok { r with new_content := some s }
    | _ => Except.error ("cannot unmarshal value into field new_content of type string")
  else if goEqualFold key ("subtasks") then
    match v with
    | Json.null => Except.ok { r with subtasks := [] }
    | Json.arr es =>
      match decodeStringList es with
      | Except.ok l => Except.ok { r with subtasks := l }
      | Except.error e => Except.error e
    | _ => Except.error ("cannot unmarshal value into field subtasks of type []string")
  else if goEqualFold key ("reasoning") then
    match v with
    | Json.str s => Except.ok { r with reasoning := s }
    | Json.null => Except.ok r
    | _ => Except.error ("cannot unmarshal value into field reasoning of type string")
  else if goEqualFold key ("inertia_score") then
    match v with
    | Json.num q => Except.ok { r with inertia_score := q }
    | Json.null => Except.ok r
    | _ => Except.error ("cannot unmarshal value into field inertia_score of type float64")
  else Except.ok r

/-- Folds the object members, in order, into the struct. -/
def applyDecisionFields (r : DecisionJSON) : List (String × Json) →
    Except String DecisionJSON
  | [] => Except.ok r
  | (k, v) :: t => do
    let r' ← applyDecisionField r k v
    applyDecisionFields r' t

/-- Models `json.Unmarshal(jsonStr, &result)` on the decision struct: the
    whole text must be valid JSON; a top-level object is decoded field by
    field, a top-level `null` leaves the zero value, and any other
    top-level value is a type error. -/
def decodeDecisionJSON (cs : List Char) : Except String DecisionJSON :=
  match parseJsonText cs with
  | none => Except.error ("invalid character in JSON input")
  | some (Json.obj fields) => applyDecisionFields {} fields
  | some Json.null => Except.ok {}
  | some _ => Except.error ("cannot unmarshal value into Go struct")

/-! ## Engine functions (engine.go) -/

/-- Models `Entity.GetSpanYears` (engine.go lines 45-54):
    `json.Unmarshal(e.SpanYears, &num)` succeeds exactly on a JSON number
    (taking its value) or JSON `null` (leaving zero); absent raw bytes and
    every failing decode yield zero. -/
def GetSpanYears (e : Entity) : ℚ :=
  if e.SpanYears.data = [] then 0
  else
    match parseJsonText e.SpanYears.data with
    | some (Json.num q) => q
    | some Json.null => 0
    | _ => 0

/-- Identifiers appearing as some task's parent identifier (the
    `parentIDs` map built in `FilterLeafNodes`). -/
def parentIDList (tasks : List Task) : List String :=
  tasks.filterMap (fun t => t.ParentID)

/-- Models `FilterLeafNodes` (engine.go lines 128-142). -/
def FilterLeafNodes (tasks : List Task) : List Task :=
  let parentIDs := parentIDList tasks
  tasks.filter (fun t => !(parentIDs.contains t.ID))

/-- The lowered search text `strings.ToLower(task.Content + " " + task.Description)`. -/
def searchText (task : Task) : List Char :=
  goToLower (task.Content ++ " " ++ task.Description).data

/-- Models `ContextualizeTask` (engine.go lines 177-220).  `now` is the
    value of the injectable `NowFunc` time source. -/
def ContextualizeTask (now : Int) (task : Task) (context : InertiaContext) :
    TaskContext :=
  let taskText := searchText task
  let relatedPeople := context.Gazetteer.People.filter
    (fun person => goContains taskText (goToLower person.Name.data))
  let relatedProjects := context.Gazetteer.Projects.filter
    (fun project => goContains taskText (goToLower project.Name.data))
  let relatedConcepts := context.Gazetteer.Concepts.filter
    (fun concept =>
      (goSplitOnSpace (goToLower concept.Name.data)).any
        (fun kw => goContains taskText kw))
  let ageDays := goAgeDays now task.AddedAt
  let maxSpan := relatedConcepts.foldl
    (fun m concept =>
      let years := GetSpanYears concept
      if years > m then years else m) 0
  { Task := task
    RelatedPeople := relatedPeople
    RelatedProjects := relatedProjects
    RelatedConcepts := relatedConcepts
    State := context.State
    AgeDays := ageDays
    HistoricalWeight := maxSpan }

/-- Bracket location step of `ParseDecisionResponse`: offsets of the first
    `\x7b` and last `\x7d`, `none` when either is absent (Go's `-1`
    check). -/
def extractBrackets (response : String) : Option (Nat × Nat) :=
  match goIndexOf response.data '\x7b', goLastIndexOf response.data '\x7d' with
  | some s, some e => some (s, e)
  | _, _ => none

/-- Models `ParseDecisionResponse` (engine.go lines 280-307).  The result
    is `none` exactly when the Go function panics: the slice expression
    `response[start : end+1]` requires `start ≤ end+1`, and when the first
    `\x7b` sits more than one position past the last `\x7d` the slice
    bounds are out of range at run time. -/
def ParseDecisionResponse (response : String) (taskID : String) :
    Option Decision :=
  match extractBrackets response with
  | none =>
    some { TaskID := taskID, Action := "skip",
           Reasoning := "Failed to parse LLM response" }
  | some (s, e) =>
    if s > e + 1 then none
    else
      match decodeDecisionJSON (goSlice response.data s (e + 1)) with
      | Except.error msg =>
        some { TaskID := taskID, Action := "skip",
               Reasoning := "JSON parse error: " ++ msg }
      | Except.ok r =>
        some { TaskID := taskID
               Action := r.action
               Priority := r.priority
               NewContent := r.new_content
               Subtasks := r.subtasks
               Reasoning := r.reasoning
               InertiaScore := r.inertia_score }

/-- Models `ExecuteDecision` (engine.go lines 321-346) as the list of
    task-source mutation commands it issues through the command runner, in
    order; each command is the argument vector passed to
    `CommandRunner.Run`.  The `ice-box` branch only logs and issues no
    command, as does an unrecognized action tag. -/
def ExecuteDecision (decision : Decision) : List (List String) :=
  if decision.Action = "skip" then []
  else if decision.Action = "reprioritize" then
    match decision.Priority with
    | some n => [["td", "task", "update", decision.TaskID, "--priority",
                  "p" ++ toString n]]
    | none => []
  else if decision.Action = "recontextualize" then
    match decision.NewContent with
    | some c => [["td", "task", "update", decision.TaskID, "--content", c]]
    | none => []
  else if decision.Action = "decompose" then
    decision.Subtasks.map
      (fun subtask => ["td", "task", "add", subtask, "--parent", decision.TaskID])
  else []

/-! ## Orchestrator CLI flag handling (main package) -/

/-- Default value of the `--context` flag registered by `main`:
    `flag.String("context", "logs/inertia-context-2026-02-22.json", ...)`. -/
def contextFlagDefault : String := "logs/inertia-context-2026-02-22.json"

/-- Models the Go `flag` package's lookup of a registered string flag on
    the command line: `-name value`, `--name value`, `-name=value` and
    `--name=value` forms; `none` when the flag does not occur. -/
def lookupFlag : List String → String → Option String
  | [], _ => none
  | a :: rest, name =>
    if a == "--" ++ name || a == "-" ++ name then rest.head?
    else if goHasPre a.data ("--" ++ name ++ "=").data then
      some ⟨a.data.drop (name.length + 3)⟩
    else if goHasPre a.data ("-" ++ name ++ "=").data then
      some ⟨a.data.drop (name.length + 2)⟩
    else lookupFlag rest name

/-- The context-file path `main` passes to `loadContext`: the parsed flag
    value, falling back to the registered default when the flag is absent. -/
def mainContextPath (args : List String) : String :=
  (lookupFlag args ("context")).getD contextFlagDefault

/-! ## Bounded-concurrency dispatcher (`ProcessTasksParallel`,
    engine.go lines 144-170)

    The semaphore is a buffered channel of capacity `maxConcurrency`; the
    main loop sends into it before spawning each goroutine, and every
    goroutine receives from it exactly once when it finishes.  A state
    counts the tasks not yet admitted (`pending`), the goroutines holding a
    semaphore slot (`running` — each runs its contextualize + reasoning
    invocation entirely while holding the slot), and the finished tasks
    (`done`).  Channel semantics gate admission: a send on a buffered
    channel succeeds only while its occupancy is below capacity. -/

/-- Dispatcher state. -/
structure DispatchState where
  pending : Nat
  running : Nat
  done : Nat
deriving DecidableEq

/-- One scheduler step of `ProcessTasksParallel` with bound `K`:
    admission of a pending task (enabled only while the semaphore has a
    free slot), or completion of a running task (releasing its slot). -/
inductive DispatchStep (K : Nat) : DispatchState → DispatchState → Prop where
  | acquire (p r d : Nat) : r < K →
      DispatchStep K ⟨p + 1, r, d⟩ ⟨p, r + 1, d⟩
  | finish (p r d : Nat) :
      DispatchStep K ⟨p, r + 1, d⟩ ⟨p, r, d + 1⟩

/-- States reachable by dispatching `N` leaf tasks with bound `K`, from
    the initial state in which nothing has been admitted. -/
inductive DispatchReachable (K N : Nat) : DispatchState → Prop where
  | init : DispatchReachable K N ⟨N, 0, 0⟩
  | step {s s' : DispatchState} : DispatchReachable K N s →
      DispatchStep K s s' → DispatchReachable K N s'

/-! ## Helper lemmas -/

theorem goContains_nil (hs : List Char) : goContains hs [] = true := by
  cases hs <;> simp [goContains, goHasPre]

theorem relatedPeople_def (now : Int) (task : Task) (ctx : InertiaContext) :
    (ContextualizeTask now task ctx).RelatedPeople =
      ctx.Gazetteer.People.filter
        (fun person => goContains (searchText task) (goToLower person.Name.data)) := rfl

theorem relatedProjects_def (now : Int) (task : Task) (ctx : InertiaContext) :
    (ContextualizeTask now task ctx).RelatedProjects =
      ctx.Gazetteer.Projects.filter
        (fun project => goContains (searchText task) (goToLower project.Name.data)) := rfl

theorem relatedConcepts_def (now : Int) (task : Task) (ctx : InertiaContext) :
    (ContextualizeTask now task ctx).RelatedConcepts =
      ctx.Gazetteer.Concepts.filter
        (fun concept =>
          (goSplitOnSpace (goToLower concept.Name.data)).any
            (fun kw => goContains (searchText task) kw)) := rfl

theorem ageDays_def (now : Int) (task : Task) (ctx : InertiaContext) :
    (ContextualizeTask now task ctx).AgeDays = goAgeDays now task.AddedAt := rfl

theorem historicalWeight_def (now : Int) (task : Task) (ctx : InertiaContext) :
    (ContextualizeTask now task ctx).HistoricalWeight =
      (ContextualizeTask now task ctx).RelatedConcepts.foldl
        (fun m concept =>
          let years := GetSpanYears concept
          if years > m then years else m) 0 := rfl

theorem foldl_if_gt_eq_foldl_max (f : Entity → ℚ) (l : List Entity) (init : ℚ) :
    l.foldl (fun m c => let y := f c; if y > m then y else m) init
      = (l.map f).foldl max init := by
  induction l generalizing init with
  | nil => rfl
  | cons c t ih =>
    simp only [List.foldl_cons, List.map_cons]
    rw [ih]
    congr 1
    rcases le_or_lt (f c) init with h | h
    · rw [if_neg (not_lt.mpr h), max_eq_left h]
    · rw [if_pos h, max_eq_right h.le]

/-! ## Claim theorems -/

/-- C3.  The leaf filter returns, in original order, exactly the input
    tasks whose identifier appears as no task's parent identifier: it
    equals the input list filtered by that predicate, so no task is
    duplicated, dropped, or reordered outside the rule. -/
theorem FilterLeafNodes_spec (tasks : List Task) :
    FilterLeafNodes tasks =
      tasks.filter (fun t => decide (∀ u ∈ tasks, u.ParentID ≠ some t.ID)) := by
  unfold FilterLeafNodes
  apply List.filter_congr
  intro t _
  have key : (parentIDList tasks).contains t.ID = true ↔
      ∃ u ∈ tasks, u.ParentID = some t.ID := by
    rw [List.contains_iff_exists_mem_beq]
    constructor
    · rintro ⟨x, hx, hbeq⟩
      rw [eq_of_beq hbeq]
      simp only [parentIDList, List.mem_filterMap] at hx
      exact hx
    · rintro ⟨u, hu, hup⟩
      refine ⟨t.ID, ?_, by simp⟩
      simp only [parentIDList, List.mem_filterMap]
      exact ⟨u, hu, hup⟩
  by_cases h : ∀ u ∈ tasks, u.ParentID ≠ some t.ID
  · have hc : (parentIDList tasks).contains t.ID = false := by
      rw [Bool.eq_false_iff]
      intro hcc
      obtain ⟨u, hu, hup⟩ := key.mp hcc
      exact h u hu hup
    rw [hc, decide_eq_true h]
    rfl
  · have hc : (parentIDList tasks).contains t.ID = true := by
      push_neg at h
      exact key.mpr h
    rw [hc, decide_eq_false h]
    rfl

/-- C6.  Entity matching is case-insensitive over the space-joined
    concatenation of content and description, and asymmetric by category:
    people and projects match on the whole (lowered) name as a substring,
    while concepts match when any space-split keyword of the name occurs
    as a substring. -/
theorem ContextualizeTask_matching (now : Int) (task : Task)
    (ctx : InertiaContext) (e : Entity) :
    (e ∈ (ContextualizeTask now task ctx).RelatedPeople ↔
      e ∈ ctx.Gazetteer.People ∧
        goContains (searchText task) (goToLower e.Name.data) = true) ∧
    (e ∈ (ContextualizeTask now task ctx).RelatedProjects ↔
      e ∈ ctx.Gazetteer.Projects ∧
        goContains (searchText task) (goToLower e.Name.data) = true) ∧
    (e ∈ (ContextualizeTask now task ctx).RelatedConcepts ↔
      e ∈ ctx.Gazetteer.Concepts ∧
        ∃ kw ∈ goSplitOnSpace (goToLower e.Name.data),
          goContains (searchText task) kw = true) := by
  refine ⟨?_, ?_, ?_⟩
  · rw [relatedPeople_def, List.mem_filter]
  · rw [relatedProjects_def, List.mem_filter]
  · rw [relatedConcepts_def, List.mem_filter, List.any_eq_true]

/-- C10.  A gazetteer entity whose name is the empty string is always
    included in its related list: the empty lowered name is a substring of
    every search text, and the empty concept name splits into the single
    empty keyword, which every search text contains. -/
theorem empty_name_always_matches (now : Int) (task : Task)
    (ctx : InertiaContext) (e : Entity) (h : e.Name = "") :
    (e ∈ ctx.Gazetteer.People →
      e ∈ (ContextualizeTask now task ctx).RelatedPeople) ∧
    (e ∈ ctx.Gazetteer.Projects →
      e ∈ (ContextualizeTask now task ctx).RelatedProjects) ∧
    (e ∈ ctx.Gazetteer.Concepts →
      e ∈ (ContextualizeTask now task ctx).RelatedConcepts) := by
  have hdata : e.Name.data = [] := by rw [h]
  refine ⟨fun hp => ?_, fun hp => ?_, fun hp => ?_⟩
  · rw [relatedPeople_def, List.mem_filter]
    exact ⟨hp, by rw [hdata]; exact goContains_nil _⟩
  · rw [relatedProjects_def, List.mem_filter]
    exact ⟨hp, by rw [hdata]; exact goContains_nil _⟩
  · rw [relatedConcepts_def, List.mem_filter]
    refine ⟨hp, ?_⟩
    rw [List.any_eq_true]
    refine ⟨[], ?_, goContains_nil _⟩
    rw [hdata]
    exact List.Mem.head _

/-- Entity, context and task used to witness C10. -/
def emptyNameEntity : Entity := { Name := "" }

/-- Context whose three matched collections each hold the empty-named
    entity. -/
def emptyNameCtx : InertiaContext :=
  { Gazetteer := { People := [emptyNameEntity], Projects := [emptyNameEntity],
                   Concepts := [emptyNameEntity] } }

/-- Witness for C10 at a concrete task and context. -/
theorem empty_name_always_matches_witness :
    emptyNameEntity ∈
        (ContextualizeTask 0 { ID := "1", Content := "write report" }
          emptyNameCtx).RelatedPeople ∧
    emptyNameEntity ∈
        (ContextualizeTask 0 { ID := "1", Content := "write report" }
          emptyNameCtx).RelatedProjects ∧
    emptyNameEntity ∈
        (ContextualizeTask 0 { ID := "1", Content := "write report" }
          emptyNameCtx).RelatedConcepts := by
  have h := empty_name_always_matches 0 { ID := "1", Content := "write report" }
    emptyNameCtx emptyNameEntity rfl
  exact ⟨h.1 (by simp [emptyNameCtx]), h.2.1 (by simp [emptyNameCtx]),
    h.2.2 (by simp [emptyNameCtx])⟩

/-- C4 counterexample.  With the now source at the epoch and a task created
    36 hours later, the source computes age `-1` (rounding toward zero)
    while the claimed floor division gives `-2`. -/
theorem ageDays_future_36h_counterexample :
    (ContextualizeTask 0 { ID := "1", AddedAt := 129600000000000 } {}).AgeDays
        = -1 ∧
    specAgeDaysFloor 0 129600000000000 = -2 ∧ (-1 : ℤ) ≠ -2 := by
  refine ⟨by decide, by decide, by decide⟩

/-- C4, amended.  The age in days is the `float64` value
    `Hours() / 24` converted with truncation toward zero, not the floor
    division of the exact duration: a creation time 36 hours in the future
    yields -1 — the truncated value, negative and unclamped, not the floor
    value -2 — and because every step rounds in binary64 the result can
    also differ from exact truncated day division at durations within
    rounding distance of a whole number of days: at 1000 days minus one
    nanosecond the code computes `Hours()` as exactly 24000.0 and yields
    age 1000, while the exact truncated quotient is 999. -/
theorem ageDays_trunc_and_float_boundary :
    (ContextualizeTask 0 { ID := "1", AddedAt := 129600000000000 } {}).AgeDays
        = -1 ∧
    (ContextualizeTask 86399999999999999 { ID := "1", AddedAt := 0 } {}).AgeDays
        = 1000 ∧
    Int.tdiv 86399999999999999 nsPerDay = 999 := by
  refine ⟨by decide, by decide, by decide⟩

/-- C5 counterexample.  A single matched concept with span `-3` yields
    historical weight `0`, not the claimed `-3`: the maximum loop starts
    from zero, so negative spans never propagate. -/
theorem historicalWeight_negative_span_counterexample :
    (ContextualizeTask 0 { ID := "1", Content := "neg stuff" }
        { Gazetteer := { Concepts := [{ Name := "neg", SpanYears := "-3" }] } }
      ).RelatedConcepts = [{ Name := "neg", SpanYears := "-3" }] ∧
    GetSpanYears { Name := "neg", SpanYears := "-3" } = -3 ∧
    (ContextualizeTask 0 { ID := "1", Content := "neg stuff" }
        { Gazetteer := { Concepts := [{ Name := "neg", SpanYears := "-3" }] } }
      ).HistoricalWeight = 0 ∧
    (0 : ℚ) ≠ -3 := by
  refine ⟨by decide, by decide, by decide, by decide⟩

/-- C5, amended.  The historical weight is the fold of `max` over the
    matched concepts' span values starting from zero — the maximum of zero
    and the matched spans (zero when nothing matched), computed from
    matched concepts only, never people or projects; a negative matched
    span therefore yields zero rather than the negative value. -/
theorem historicalWeight_eq_foldl_max (now : Int) (task : Task)
    (ctx : InertiaContext) :
    (ContextualizeTask now task ctx).HistoricalWeight =
      ((ContextualizeTask now task ctx).RelatedConcepts.map
        GetSpanYears).foldl max 0 := by
  rw [historicalWeight_def]
  exact foldl_if_gt_eq_foldl_max GetSpanYears _ 0

/-- C7.  In every reachable state of the bounded dispatcher, the number of
    tasks that have acquired a semaphore slot and not yet released it —
    each holding its reasoning-engine invocation — is at most the
    concurrency bound `K`. -/
theorem dispatch_concurrency_bound (K N : Nat) (_hK : 1 ≤ K)
    (s : DispatchState) (h : DispatchReachable K N s) : s.running ≤ K := by
  induction h with
  | init => exact Nat.zero_le K
  | step hr hstep ih =>
    cases hstep with
    | acquire p r d hlt => exact hlt
    | finish p r d => exact Nat.le_of_succ_le ih

/-- Witness for C7: with bound 2 and 3 tasks, the state reached after two
    admissions has 2 ≤ 2 slots held. -/
theorem dispatch_concurrency_bound_witness :
    1 ≤ 2 ∧ (DispatchState.mk 1 2 0).running ≤ 2 :=
  ⟨by decide,
    dispatch_concurrency_bound 2 3 (by decide) ⟨1, 2, 0⟩
      (DispatchReachable.step
        (DispatchReachable.step DispatchReachable.init
          (DispatchStep.acquire 2 0 0 (by decide)))
        (DispatchStep.acquire 1 1 0 (by decide)))⟩

/-- C8.  Executing a `reprioritize` decision issues exactly one update
    command `td task update <id> --priority p<N>` when a priority is
    present, and no command at all when it is absent. -/
theorem ExecuteDecision_reprioritize (d : Decision)
    (h : d.Action = "reprioritize") :
    ExecuteDecision d =
      (match d.Priority with
       | some n => [["td", "task", "update", d.TaskID, "--priority",
                     "p" ++ toString n]]
       | none => []) := by
  unfold ExecuteDecision
  rw [h]
  rfl

/-- Decision used to witness C8, matching the spec's example. -/
def reprioritizeP2 : Decision :=
  { TaskID := "123", Action := "reprioritize", Priority := some 2 }

/-- Witness for C8 at priority 2 and task id "123". -/
theorem ExecuteDecision_reprioritize_witness :
    ExecuteDecision reprioritizeP2 =
      [["td", "task", "update", "123", "--priority", "p2"]] := by
  rw [ExecuteDecision_reprioritize reprioritizeP2 rfl]
  decide

/-- C9 counterexample.  Invoking `main` without the context option does
    proceed with a built-in default context path: the flag is registered
    with default `logs/inertia-context-2026-02-22.json`, which `main`
    passes to the context loader. -/
theorem contextFlag_absent_counterexample :
    lookupFlag [] ("context") = none ∧
    mainContextPath [] = contextFlagDefault ∧
    contextFlagDefault = "logs/inertia-context-2026-02-22.json" := by
  refine ⟨rfl, rfl, rfl⟩

/-- C9, amended.  The context option is not required: whenever it is
    absent from the command line, the run proceeds by loading the built-in
    default path `logs/inertia-context-2026-02-22.json`. -/
theorem mainContextPath_absent_flag (args : List String)
    (h : lookupFlag args ("context") = none) :
    mainContextPath args = contextFlagDefault := by
  unfold mainContextPath
  rw [h]
  rfl

/-- Witness for the amended C9 at an empty command line. -/
theorem mainContextPath_absent_flag_witness :
    mainContextPath [] = contextFlagDefault :=
  mainContextPath_absent_flag [] rfl

/-- C1 counterexample.  A response whose extracted JSON decodes
    successfully but carries the action string "frobnicate" yields a
    Decision whose action is "frobnicate", which is none of the five
    tags. -/
theorem parse_unknown_action_counterexample :
    (ParseDecisionResponse
        ("\x7b\"action\":\"frobnicate\",\"reasoning\":\"x\"\x7d") ("123")).map Decision.Action = some "frobnicate" ∧
    ¬ ("frobnicate" ∈
        ["skip", "decompose", "ice-box", "reprioritize", "recontextualize"]) := by
  refine ⟨by decide, by decide⟩

/-- C1, amended.  Whenever the parser returns a Decision, its action is
    either the `skip` default installed on a parse failure or exactly the
    action string decoded from the JSON payload — which need not be one of
    the five tags. -/
theorem ParseDecisionResponse_action_cases (response taskID : String)
    (d : Decision) (h : ParseDecisionResponse response taskID = some d) :
    d.Action = "skip" ∨
    ∃ s e r, extractBrackets response = some (s, e) ∧
      decodeDecisionJSON (goSlice response.data s (e + 1)) = Except.ok r ∧
      d.Action = r.action := by
  unfold ParseDecisionResponse at h
  cases hb : extractBrackets response with
  | none =>
    rw [hb] at h
    obtain rfl := Option.some_injective _ h
    left
    rfl
  | some se =>
    obtain ⟨s, e⟩ := se
    rw [hb] at h
    dsimp only at h
    by_cases hse : s > e + 1
    · rw [if_pos hse] at h
      exact absurd h (by simp)
    · rw [if_neg hse] at h
      cases hd : decodeDecisionJSON (goSlice response.data s (e + 1)) with
      | error msg =>
        rw [hd] at h
        obtain rfl := Option.some_injective _ h
        left
        rfl
      | ok r =>
        rw [hd] at h
        obtain rfl := Option.some_injective _ h
        exact Or.inr ⟨s, e, r, rfl, hd, rfl⟩

/-- The skip Decision produced for a brace-free response, used to witness
    the amended C1. -/
def skipNoBraces : Decision :=
  { TaskID := "t1", Action := "skip",
    Reasoning := "Failed to parse LLM response" }

/-- Witness for the amended C1 at a brace-free response. -/
theorem ParseDecisionResponse_action_cases_witness :
    skipNoBraces.Action = "skip" ∨
    ∃ s e r, extractBrackets ("hello") = some (s, e) ∧
      decodeDecisionJSON (goSlice ("hello").data s (e + 1)) = Except.ok r ∧
      skipNoBraces.Action = r.action :=
  ParseDecisionResponse_action_cases ("hello") ("t1") skipNoBraces (by decide)

/-- C2.  Evaluated at the response `"} {"` — whose last closing brace
    precedes its first opening brace — the parser does not return any
    Decision: the Go slice expression `response[2:1]` is out of range and
    the function panics instead of degrading to a skip Decision. -/
theorem parse_reversed_braces_panics :
    ParseDecisionResponse ("\x7d \x7b") ("t1") = none := by decide

end InertiaEngine
